import Mathlib

/-!
Shallow embedding of `trusted_applet/cmd/console.go` (package `cmd`) from the
armored-witness-applet repository: a minimal interactive command console.

Modelling conventions:
* Go errors are the inductive `cmd.Error`: `Error.eof` stands for `io.EOF`
  and `Error.msg s` for `errors.New(s)` / any other error carrying message `s`.
* `*term.Terminal` is modelled by the record `cmd.Terminal`: the fields the
  code uses are the escape codes and the current prompt.  `term.ReadLine`
  results are supplied as explicit inputs (`Except Error String`).
* `*regexp.Regexp` together with `FindStringSubmatch` is modelled abstractly
  as a function `String → List String` returning the submatch slice `m`
  (empty list for `nil`, i.e. no match; otherwise `m[0]` is the full match
  and `m[1:]` the captured groups), exactly the interface the code consumes.
* The Go map `cmds` is iterated in unspecified order; a registry snapshot in
  some iteration order is a `List Cmd`, and `Add`'s map-insert semantics
  (overwrite by name) is `add` on that list.
* Handler functions `CmdFn` are pure: `Terminal → List String → String × Option Error`
  returning `(res, err)`; the output that `Handle` itself writes to the
  session (`fmt.Fprintln(term, res)`) is returned as an explicit string.
* `strings.Repeat` with a negative count panics in Go; `msg` therefore
  returns `Option String`, `none` marking the panic.
* Go `len` on strings is a byte count, modelled by `byteLen` (UTF-8 size).
-/

namespace cmd

/-- Go errors relevant to the console: `io.EOF` or a message-carrying error. -/
inductive Error where
  | eof
  | msg (s : String)
deriving DecidableEq, Repr

/-- The named escape/color codes of `term.Terminal.Escape` used by the code. -/
structure EscapeCodes where
  Red : String
  Cyan : String
  Reset : String
deriving DecidableEq, Repr

/-- The observable state of a `*term.Terminal`: escape codes and the prompt. -/
structure Terminal where
  Escape : EscapeCodes
  prompt : String
deriving DecidableEq, Repr

/-- `type Cmd struct` from console.go.  `Pattern = none` models a nil
`*regexp.Regexp`; otherwise the function is `FindStringSubmatch`. `Args` is a
Go `int`, hence `Int`. -/
structure Cmd where
  Name : String
  Args : Int
  Pattern : Option (String → List String)
  Syntax : String
  Help : String
  Fn : Terminal → List String → String × Option Error

/-- `const separator = "-"` -/
def separator : String := "-"

/-- `const separatorSize = 80` -/
def separatorSize : Nat := 80

/-- `strings.Repeat(s, n)` for a non-negative count. -/
def sRepeat (s : String) : Nat → String
  | 0 => ""
  | n + 1 => s ++ sRepeat s n

/-- Go `len` on a string: its UTF-8 byte size. -/
def byteLen (s : String) : Nat :=
  s.data.foldl (fun n c => n + c.utf8Size) 0

/-- `func Add(cmd Cmd)`: map insert `cmds[cmd.Name] = &cmd` on a registry
snapshot: overwrite the entry with the same name if present, else append. -/
def add (r : List Cmd) (c : Cmd) : List Cmd :=
  if r.any (fun x => x.Name == c.Name) then
    r.map (fun x => if x.Name == c.Name then c else x)
  else
    r ++ [c]

/-- The registry built by a sequence of `Add` calls, starting empty. -/
def registry (regs : List Cmd) : List Cmd :=
  regs.foldl add []

/-- `func msg(format ...)`: builds `"--" + " " + text` then pads with
`strings.Repeat(separator, separatorSize-len(s))`; that call panics when the
count is negative, modelled by `none`.  The resulting banner is what is
passed to `klog.Info`. -/
def msg (format : String) : Option String :=
  let s := sRepeat separator 2 ++ " " ++ format
  if byteLen s ≤ separatorSize then
    some (s ++ sRepeat separator (separatorSize - byteLen s))
  else
    none

/-- The prompt `confirm`'s deferred call installs:
`string(term.Escape.Red) + "> " + string(term.Escape.Reset)` (also the prompt
`SerialConsole` sets). -/
def defaultPrompt (t : Terminal) : String :=
  t.Escape.Red ++ "> " ++ t.Escape.Reset

/-- The temporary prompt `confirm` shows while reading. -/
def confirmPrompt : String := "Are you sure? (y/n) "

/-- `func confirm(term) bool`: sets the temporary prompt, reads one line
(the read outcome is the explicit input `read`), and by `defer` re-sets the
prompt to `defaultPrompt` on every exit path.  Returns the final terminal
state and the boolean result: `false` on a read error, else `input == "y"`. -/
def confirm (t : Terminal) (read : Except Error String) : Terminal × Bool :=
  let t1 : Terminal := { t with prompt := confirmPrompt }
  let t2 : Terminal := { t1 with prompt := defaultPrompt t1 }
  match read with
  | .error _ => (t2, false)
  | .ok input => (t2, input == "y")

/-- The sorted name list `Help` iterates: map keys sorted by `sort.Strings`. -/
def sortedNames (r : List Cmd) : List String :=
  (r.map (fun c => c.Name)).mergeSort (fun a b => decide (a ≤ b))

/-- The rows `Help` writes, in order: for each registry name in sorted order,
the triple (Name, Syntax, Help) of the registered command of that name. -/
def helpRows (r : List Cmd) : List (String × String × String) :=
  (sortedNames r).map (fun n =>
    match r.find? (fun c => c.Name == n) with
    | some c => (c.Name, c.Syntax, c.Help)
    | none => ("", "", ""))

/-- `func Help(term) string`: the rows, each formatted as
`"%s\t%s\t # %s\n"`, wrapped in cyan/reset escapes.  (The column alignment
performed by the external `text/tabwriter` collaborator is elided; the row
content and order are as in the source.) -/
def Help (t : Terminal) (r : List Cmd) : String :=
  t.Escape.Cyan ++
    String.join ((helpRows r).map
      (fun row => row.1 ++ "\t" ++ row.2.1 ++ "\t # " ++ row.2.2 ++ "\n")) ++
    t.Escape.Reset

/-- The match test of `Handle`'s loop body for one command: a nil-pattern
command matches on `cmd.Name == line`; a pattern command matches when
`m := FindStringSubmatch(line)` satisfies `len(m) > 0 && len(m)-1 == cmd.Args`. -/
def cmdMatches (c : Cmd) (line : String) : Bool :=
  match c.Pattern with
  | none => c.Name == line
  | some p =>
    decide (0 < (p line).length) && decide (((p line).length : Int) - 1 = c.Args)

/-- The argument slice a matching command is invoked with: `nil` (empty) for
a nil-pattern command, `m[1:]` for a pattern command. -/
def argsOf (c : Cmd) (line : String) : List String :=
  match c.Pattern with
  | none => []
  | some p => (p line).drop 1

/-- The scan of `Handle`'s `for _, cmd := range cmds` loop over a registry
snapshot: the first command matching `line`, with its argument slice. -/
def findMatch : List Cmd → String → Option (Cmd × List String)
  | [], _ => none
  | c :: rest, line =>
    if cmdMatches c line then some (c, argsOf c line) else findMatch rest line

/-- The message of the error `Handle` returns when nothing matches. -/
def unknownCommandMsg : String := "unknown command, type `help`"

/-- The tail of `Handle` once a command is matched: run the handler
`res, err = match.Fn(term, arg)`; a non-nil error is returned verbatim and
nothing is written; on success `fmt.Fprintln(term, res)` writes `res` plus a
newline and nil is returned. -/
def runCmd (t : Terminal) (c : Cmd) (arg : List String) : String × Option Error :=
  match c.Fn t arg with
  | (_, some e) => ("", some e)
  | (res, none) => (res ++ "\n", none)

/-- `func Handle(term, line) error`: scan for a match; with no match return
the unknown-command error; otherwise run the handler via `runCmd`.
Result: (string written to the session by `Handle`, returned error). -/
def Handle (t : Terminal) (regs : List Cmd) (line : String) : String × Option Error :=
  match findMatch regs line with
  | none => ("", some (Error.msg unknownCommandMsg))
  | some (c, arg) => runCmd t c arg

/-- One `term.ReadLine()` outcome inside `Console`'s loop. -/
inductive ReadResult where
  | line (s : String)
  | err (e : Error)
deriving Repr

/-- The control state of the console loop (design note §9 of the spec). -/
inductive LoopState where
  | running
  | terminated
deriving DecidableEq, Repr

/-- Message rendering of an error, as `%v` formats it (`io.EOF` prints
`"EOF"`). -/
def errText : Error → String
  | .eof => "EOF"
  | .msg s => s

/-- One iteration of `Console`'s `for` loop on a read outcome: `io.EOF` from
the read breaks; any other read error is logged (`klog.Errorf`) and the loop
continues; a read line is dispatched via `Handle`, whose `io.EOF` error
breaks, whose other errors are logged, and whose success continues.  Result:
next control state and the log lines emitted. -/
def consoleStep (t : Terminal) (regs : List Cmd) : ReadResult → LoopState × List String
  | .err e =>
    if e = Error.eof then (.terminated, [])
    else (.running, ["readline error: " ++ errText e])
  | .line s =>
    match (Handle t regs s).2 with
    | none => (.running, [])
    | some e =>
      if e = Error.eof then (.terminated, [])
      else (.running, ["command error: " ++ errText e])

/-- The console loop run on a finite script of read outcomes: `true` when the
loop breaks (terminates by `break`) at some step, `false` when the script is
exhausted with the loop still running. -/
def consoleRun (t : Terminal) (regs : List Cmd) : List ReadResult → Bool
  | [] => false
  | r :: rest =>
    match (consoleStep t regs r).1 with
    | .terminated => true
    | .running => consoleRun t regs rest

/-! Concrete fixtures used to instantiate the theorems below on closed
inputs: a terminal with distinguishable escape codes, an exact-name command,
a pattern command (the `set-x` example of the spec, with the submatch
function a regex such as `^set (\d+)$` yields), and a command whose handler
fails. -/

/-- A concrete terminal state. -/
def term0 : Terminal :=
  { Escape := { Red := "[R]", Cyan := "[C]", Reset := "[0]" }, prompt := "$ " }

/-- A concrete submatch function: the one `FindStringSubmatch` of a regex
matching `set 42` with one captured group gives on the inputs used below. -/
def patFn42 : String → List String :=
  fun s => if s = "set 42" then ["set 42", "42"] else []

/-- A concrete pattern command expecting one captured argument. -/
def setCmd : Cmd :=
  { Name := "set-x", Args := 1, Pattern := some patFn42, Syntax := "set <n>",
    Help := "set the value", Fn := fun _ a => ("x=" ++ a.headD "", none) }

/-- A concrete exact-name command whose handler succeeds. -/
def rebootCmd : Cmd :=
  { Name := "reboot", Args := 0, Pattern := none, Syntax := "reboot",
    Help := "reboot the device", Fn := fun _ _ => ("rebooting", none) }

/-- A concrete exact-name command whose handler always fails. -/
def failCmd : Cmd :=
  { Name := "fail", Args := 0, Pattern := none, Syntax := "fail",
    Help := "always fails",
    Fn := fun _ _ => ("partial output", some (Error.msg "boom")) }

/-- A 78-byte message, long enough to drive `msg`'s repeat count negative. -/
def longMsg : String := String.mk (List.replicate 78 'a')

/-! ### Basic lemmas about the dispatch scan -/

lemma findMatch_cons (c : Cmd) (rest : List Cmd) (line : String) :
    findMatch (c :: rest) line =
      if cmdMatches c line then some (c, argsOf c line) else findMatch rest line := rfl

lemma findMatch_some {l : List Cmd} {line : String} {c : Cmd} {a : List String}
    (h : findMatch l line = some (c, a)) :
    c ∈ l ∧ cmdMatches c line = true ∧ a = argsOf c line := by
  induction l with
  | nil => simp [findMatch] at h
  | cons d rest ih =>
    rw [findMatch_cons] at h
    by_cases hd : cmdMatches d line
    · simp only [hd, if_true] at h
      obtain ⟨h1, h2⟩ := Prod.mk.injEq .. ▸ (Option.some.injEq _ _ ▸ h)
      exact ⟨h1 ▸ List.mem_cons_self _ _, h1 ▸ hd, h1 ▸ h2.symm⟩
    · simp only [hd, if_false, Bool.false_eq_true] at h
      obtain ⟨hm, hc, ha⟩ := ih h
      exact ⟨List.mem_cons_of_mem _ hm, hc, ha⟩

lemma findMatch_eq_none {regs : List Cmd} {line : String}
    (h : ∀ c ∈ regs, cmdMatches c line = false) :
    findMatch regs line = none := by
  induction regs with
  | nil => rfl
  | cons d rest ih =>
    rw [findMatch_cons, if_neg]
    · exact ih fun c hc => h c (List.mem_cons_of_mem _ hc)
    · simp [h d (List.mem_cons_self _ _)]

lemma findMatch_append_nomatch {regs₁ : List Cmd} {line : String}
    (h : ∀ d ∈ regs₁, cmdMatches d line = false) (l₂ : List Cmd) :
    findMatch (regs₁ ++ l₂) line = findMatch l₂ line := by
  induction regs₁ with
  | nil => rfl
  | cons d rest ih =>
    rw [List.cons_append, findMatch_cons, if_neg]
    · exact ih fun e he => h e (List.mem_cons_of_mem _ he)
    · simp [h d (List.mem_cons_self _ _)]

lemma Handle_of_findMatch_none {t : Terminal} {regs : List Cmd} {line : String}
    (h : findMatch regs line = none) :
    Handle t regs line = ("", some (Error.msg unknownCommandMsg)) := by
  simp [Handle, h]

lemma Handle_of_findMatch_some {t : Terminal} {regs : List Cmd} {line : String}
    {c : Cmd} {a : List String} (h : findMatch regs line = some (c, a)) :
    Handle t regs line = runCmd t c a := by
  simp [Handle, h]

lemma Handle_congr {t : Terminal} {l₁ l₂ : List Cmd} {line : String}
    (h : findMatch l₁ line = findMatch l₂ line) :
    Handle t l₁ line = Handle t l₂ line := by
  simp [Handle, h]

/-- C1: a registered command with a non-nil pattern, reached by `Handle`'s
scan (no command before it matches the line), is selected with argument list
`m[1:]` if and only if its `FindStringSubmatch` result `m` is a match
(`len(m) > 0`) whose captured-group count `len(m)-1` equals the command's
`Args`; the full-match group `m[0]` is excluded from the arguments. -/
theorem pattern_dispatch_iff (regs₁ regs₂ : List Cmd) (c : Cmd)
    (p : String → List String) (line : String)
    (hp : c.Pattern = some p)
    (hfirst : ∀ d ∈ regs₁, cmdMatches d line = false) :
    findMatch (regs₁ ++ c :: regs₂) line = some (c, (p line).drop 1) ↔
      0 < (p line).length ∧ ((p line).length : Int) - 1 = c.Args := by
  constructor
  · intro h
    have hm := (findMatch_some h).2.1
    simpa [cmdMatches, hp] using hm
  · rintro ⟨h1, h2⟩
    rw [findMatch_append_nomatch hfirst, findMatch_cons, if_pos, argsOf, hp]
    simp [cmdMatches, hp, h1, h2]

/-- Witness for C1 at the concrete pattern command `setCmd` and the line
`set 42`. -/
theorem pattern_dispatch_iff_witness :
    findMatch [setCmd] "set 42" = some (setCmd, ["42"]) :=
  (pattern_dispatch_iff [] [] setCmd patFn42 "set 42" rfl (by simp)).mpr
    (by constructor <;> decide)

/-- C2: a registered command with a nil pattern is selected by `Handle` only
when the line equals its `Name` (full-string comparison), with an empty
argument list; conversely, when it is reached by the scan and the line
equals its name, it is selected with no arguments. -/
theorem exact_dispatch_spec (c : Cmd) (hc : c.Pattern = none) :
    (∀ (l : List Cmd) (line : String) (a : List String),
        findMatch l line = some (c, a) → line = c.Name ∧ a = []) ∧
    (∀ (regs₁ regs₂ : List Cmd) (line : String),
        (∀ d ∈ regs₁, cmdMatches d line = false) → line = c.Name →
        findMatch (regs₁ ++ c :: regs₂) line = some (c, [])) := by
  constructor
  · intro l line a h
    obtain ⟨-, hm, ha⟩ := findMatch_some h
    simp only [cmdMatches, hc, beq_iff_eq] at hm
    exact ⟨hm.symm, by simpa [argsOf, hc] using ha⟩
  · intro regs₁ regs₂ line h1 h2
    rw [findMatch_append_nomatch h1, findMatch_cons, if_pos]
    · simp [argsOf, hc]
    · simp [cmdMatches, hc, h2]

/-- Witness for C2 at the concrete exact-name command `rebootCmd`. -/
theorem exact_dispatch_spec_witness :
    findMatch [rebootCmd] "reboot" = some (rebootCmd, []) :=
  (exact_dispatch_spec rebootCmd rfl).2 [] [] "reboot" (by simp) rfl

/-- C3: when no registered command matches the line, `Handle` returns the
error with message `unknown command, type \x60help\x60` and writes nothing
to the session. -/
theorem handle_unknown_command (t : Terminal) (regs : List Cmd) (line : String)
    (h : ∀ c ∈ regs, cmdMatches c line = false) :
    Handle t regs line = ("", some (Error.msg unknownCommandMsg)) :=
  Handle_of_findMatch_none (findMatch_eq_none h)

/-- Witness for C3: the line `nope` matches neither of two registered
commands. -/
theorem handle_unknown_command_witness :
    Handle term0 [rebootCmd, setCmd] "nope" =
      ("", some (Error.msg unknownCommandMsg)) :=
  handle_unknown_command term0 [rebootCmd, setCmd] "nope" (by decide)

/-- C4: when `Handle` selects a command, a handler error is returned
verbatim with nothing written to the session, and a handler success writes
exactly the result string followed by a newline and returns no error. -/
theorem handle_result_propagation (t : Terminal) (regs : List Cmd) (line : String)
    (c : Cmd) (a : List String) (h : findMatch regs line = some (c, a)) :
    (∀ (res : String) (e : Error),
        c.Fn t a = (res, some e) → Handle t regs line = ("", some e)) ∧
    (∀ res : String, c.Fn t a = (res, none) → Handle t regs line = (res ++ "\n", none)) := by
  constructor
  · intro res e hfn
    rw [Handle_of_findMatch_some h]
    simp [runCmd, hfn]
  · intro res hfn
    rw [Handle_of_findMatch_some h]
    simp [runCmd, hfn]

/-- Witness for C4: the failing handler's error is propagated with no
output; the succeeding handler's result is written with a newline. -/
theorem handle_result_propagation_witness :
    Handle term0 [failCmd] "fail" = ("", some (Error.msg "boom")) ∧
    Handle term0 [rebootCmd] "reboot" = ("rebooting" ++ "\n", none) :=
  ⟨(handle_result_propagation term0 [failCmd] "fail" failCmd [] rfl).1
      "partial output" (Error.msg "boom") rfl,
   (handle_result_propagation term0 [rebootCmd] "reboot" rebootCmd [] rfl).2
      "rebooting" rfl⟩

/-! ### Args is dead weight for nil-pattern commands -/

lemma cmdMatches_set_args {c : Cmd} (hc : c.Pattern = none) (n : Int) (line : String) :
    cmdMatches { c with Args := n } line = cmdMatches c line := by
  simp [cmdMatches, hc]

lemma Handle_cons_nomatch {t : Terminal} {d : Cmd} {rest : List Cmd} {line : String}
    (hd : cmdMatches d line = false) :
    Handle t (d :: rest) line = Handle t rest line :=
  Handle_congr (by rw [findMatch_cons, if_neg (by simp [hd])])

lemma Handle_cons_match {t : Terminal} {d : Cmd} {rest : List Cmd} {line : String}
    (hd : cmdMatches d line = true) :
    Handle t (d :: rest) line = runCmd t d (argsOf d line) :=
  Handle_of_findMatch_some (by rw [findMatch_cons, if_pos hd])

/-- C10: for a command with a nil pattern the `Args` field plays no role in
dispatch: replacing it by any value leaves `Handle`'s behaviour on every
registry and line unchanged, and whenever such a command is selected its
argument list is empty. -/
theorem nil_pattern_args_ignored (c : Cmd) (n : Int) (hc : c.Pattern = none) :
    (∀ (t : Terminal) (regs₁ regs₂ : List Cmd) (line : String),
        Handle t (regs₁ ++ { c with Args := n } :: regs₂) line =
          Handle t (regs₁ ++ c :: regs₂) line) ∧
    (∀ (l : List Cmd) (line : String) (a : List String),
        findMatch l line = some ({ c with Args := n }, a) → a = []) := by
  constructor
  · intro t regs₁ regs₂ line
    induction regs₁ with
    | nil =>
      simp only [List.nil_append]
      by_cases hm : cmdMatches c line
      · rw [Handle_cons_match (by rw [cmdMatches_set_args hc]; exact hm),
            Handle_cons_match hm]
        simp [runCmd, argsOf, hc]
      · rw [Handle_cons_nomatch (by rw [cmdMatches_set_args hc]; simpa using hm),
            Handle_cons_nomatch (by simpa using hm)]
    | cons d rest ih =>
      by_cases hd : cmdMatches d line
      · rw [List.cons_append, List.cons_append, Handle_cons_match hd,
            Handle_cons_match hd]
      · rw [List.cons_append, List.cons_append, Handle_cons_nomatch (by simpa using hd),
            Handle_cons_nomatch (by simpa using hd)]
        exact ih
  · intro l line a h
    have := (findMatch_some h).2.2
    simpa [argsOf, hc] using this

/-- Witness for C10: `rebootCmd` with `Args` forced to 7 dispatches exactly
as `rebootCmd` does, with an empty argument list. -/
theorem nil_pattern_args_ignored_witness :
    Handle term0 [{ rebootCmd with Args := 7 }] "reboot" =
      Handle term0 [rebootCmd] "reboot" :=
  (nil_pattern_args_ignored rebootCmd 7 rfl).1 term0 [] [] "reboot"

/-! ### The confirmation helper -/

/-- C7: `confirm` answers `true` exactly when the line read is `y`; a read
error or any other line answers `false`, and `confirm` never returns an
error (it is a total boolean function). -/
theorem confirm_true_iff (t : Terminal) (read : Except Error String) :
    (confirm t read).2 = true ↔ read = Except.ok "y" := by
  cases read with
  | error e => simp [confirm]
  | ok s => simp [confirm]

/-- C6 counterexample: `confirm` does not restore the prompt in effect when
it was called — on the concrete terminal `term0`, whose prompt is `$ `, the
prompt after `confirm` returns differs from the prompt before. -/
theorem confirm_restore_counterexample :
    ¬ (confirm term0 (Except.ok "y")).1.prompt = term0.prompt := by
  decide

/-- C6 amended: on every exit path (read error included) `confirm` leaves
the prompt equal to the fixed default prompt
`Escape.Red + "> " + Escape.Reset`, not the prompt previously in effect;
only the temporary confirmation prompt is shown during the call, and the
prior prompt is back in effect after the call exactly when it was that
default prompt. -/
theorem confirm_default_prompt (t : Terminal) (read : Except Error String) :
    (confirm t read).1.prompt = defaultPrompt t ∧
    (confirm t read).1.Escape = t.Escape ∧
    ((confirm t read).1.prompt = t.prompt ↔ t.prompt = defaultPrompt t) := by
  cases read <;> exact ⟨rfl, rfl, eq_comm⟩

/-! ### The console loop -/

/-- C5: a step of the console loop reaches `terminated` exactly when the
read yields `io.EOF` or `Handle` returns `io.EOF`; every other read error
and every other dispatch error is logged and leaves the loop `running`; and
a finite run of the loop breaks out exactly when some step of its script
terminates. -/
theorem console_terminates_iff (t : Terminal) (regs : List Cmd) :
    (∀ r : ReadResult, (consoleStep t regs r).1 = LoopState.terminated ↔
        r = ReadResult.err Error.eof ∨
        ∃ s, r = ReadResult.line s ∧ (Handle t regs s).2 = some Error.eof) ∧
    (∀ e : Error, e ≠ Error.eof →
        consoleStep t regs (ReadResult.err e) =
          (LoopState.running, ["readline error: " ++ errText e])) ∧
    (∀ (s : String) (e : Error), (Handle t regs s).2 = some e → e ≠ Error.eof →
        consoleStep t regs (ReadResult.line s) =
          (LoopState.running, ["command error: " ++ errText e])) ∧
    (∀ script : List ReadResult, consoleRun t regs script = true ↔
        ∃ r ∈ script, (consoleStep t regs r).1 = LoopState.terminated) := by
  have hstep : ∀ r : ReadResult, (consoleStep t regs r).1 = LoopState.terminated ↔
      r = ReadResult.err Error.eof ∨
      ∃ s, r = ReadResult.line s ∧ (Handle t regs s).2 = some Error.eof := by
    intro r
    cases r with
    | err e =>
      by_cases he : e = Error.eof <;> simp [consoleStep, he]
    | line s =>
      cases hh : (Handle t regs s).2 with
      | none => simp [consoleStep, hh]
      | some e =>
        by_cases he : e = Error.eof <;> simp [consoleStep, hh, he]
  refine ⟨hstep, ?_, ?_, ?_⟩
  · intro e he
    simp [consoleStep, he]
  · intro s e hh he
    simp [consoleStep, hh, he]
  · intro script
    induction script with
    | nil => simp [consoleRun]
    | cons r rest ih =>
      cases hs : (consoleStep t regs r).1 with
      | terminated => simp [consoleRun, hs]
      | running => simp [consoleRun, hs, ih]

/-- Witness for C5: an end-of-stream read terminates the loop; the unknown
command error does not. -/
theorem console_terminates_iff_witness :
    (consoleStep term0 [] (ReadResult.err Error.eof)).1 = LoopState.terminated ∧
    consoleStep term0 [] (ReadResult.err (Error.msg "I/O fault")) =
      (LoopState.running, ["readline error: " ++ errText (Error.msg "I/O fault")]) :=
  ⟨((console_terminates_iff term0 []).1 (ReadResult.err Error.eof)).mpr (Or.inl rfl),
   (console_terminates_iff term0 []).2.1 (Error.msg "I/O fault") (by decide)⟩

/-! ### The banner formatter `msg` -/

lemma byteLen_foldl_aux (l : List Char) (k : Nat) :
    l.foldl (fun n c => n + c.utf8Size) k = k + l.foldl (fun n c => n + c.utf8Size) 0 := by
  induction l generalizing k with
  | nil => simp
  | cons c l ih =>
    simp only [List.foldl_cons]
    rw [ih (k + c.utf8Size), ih (0 + c.utf8Size)]
    omega

lemma byteLen_append (a b : String) : byteLen (a ++ b) = byteLen a + byteLen b := by
  unfold byteLen
  rw [String.data_append, List.foldl_append, byteLen_foldl_aux]

lemma byteLen_sRepeat (s : String) (n : Nat) :
    byteLen (sRepeat s n) = n * byteLen s := by
  induction n with
  | zero => simp [sRepeat, byteLen]
  | succ n ih =>
    rw [sRepeat, byteLen_append, ih]
    ring

/-- C9 counterexample: the banner formatting is not total — on a 78-byte
message the string `"-- " + message` is 81 bytes long, the repeat count
`separatorSize - len(s)` is negative, and `strings.Repeat` panics, modelled
by `msg` returning `none` instead of a banner. -/
theorem msg_total_counterexample : msg longMsg = none := by
  decide

/-- C9 amended: for every message whose prefixed form `"-- " + message` is
at most `separatorSize` (80) bytes, `msg` is defined and produces the banner
`"-- " + message` padded with `-` characters to exactly 80 bytes; for longer
messages the negative repeat count panics (see the counterexample), so the
formatting is total only up to 77-byte messages. -/
theorem msg_banner (m : String)
    (h : byteLen (sRepeat separator 2 ++ " " ++ m) ≤ separatorSize) :
    sRepeat separator 2 ++ " " ++ m = "-- " ++ m ∧
    msg m = some ((sRepeat separator 2 ++ " " ++ m) ++
        sRepeat separator (separatorSize - byteLen (sRepeat separator 2 ++ " " ++ m))) ∧
    ∀ out, msg m = some out → byteLen out = separatorSize := by
  refine ⟨rfl, ?_, ?_⟩
  · unfold msg
    rw [if_pos h]
  · intro out hout
    unfold msg at hout
    rw [if_pos h, Option.some.injEq] at hout
    rw [← hout, byteLen_append, byteLen_sRepeat]
    have hsep : byteLen separator = 1 := by decide
    rw [hsep]
    omega

/-- Witness for C9 (amended) on the message `hello`: the banner is produced
and is exactly 80 bytes. -/
theorem msg_banner_witness :
    byteLen (sRepeat separator 2 ++ " " ++ "hello") ≤ separatorSize ∧
    msg "hello" = some ((sRepeat separator 2 ++ " " ++ "hello") ++
        sRepeat separator (separatorSize - byteLen (sRepeat separator 2 ++ " " ++ "hello"))) :=
  ⟨by decide, (msg_banner "hello" (by decide)).2.1⟩

/-! ### Registry registration and the `Help` listing -/

lemma map_name_add (r : List Cmd) (c : Cmd) :
    (add r c).map Cmd.Name =
      if r.any (fun x => x.Name == c.Name) then r.map Cmd.Name
      else r.map Cmd.Name ++ [c.Name] := by
  unfold add
  split
  · rw [List.map_map]
    apply List.map_congr_left
    intro x _
    simp only [Function.comp_apply]
    by_cases hx : x.Name = c.Name
    · simp [hx]
    · simp [hx]
  · simp

lemma find?_replace_self (r : List Cmd) (c : Cmd)
    (h : r.any (fun x => x.Name == c.Name) = true) :
    (r.map (fun x => if x.Name == c.Name then c else x)).find?
        (fun x => x.Name == c.Name) = some c := by
  induction r with
  | nil => simp at h
  | cons x r ih =>
    rw [List.map_cons]
    by_cases hx : x.Name = c.Name
    · have h1 : (if (x.Name == c.Name) = true then c else x) = c := by simp [hx]
      rw [h1, List.find?_cons_of_pos _ (by simp)]
    · have h1 : (if (x.Name == c.Name) = true then c else x) = x := by simp [hx]
      rw [h1, List.find?_cons_of_neg _ (by simp [hx])]
      exact ih (by simpa [List.any_cons, hx] using h)

lemma find?_replace_other (r : List Cmd) (c : Cmd) (n : String) (hn : n ≠ c.Name) :
    (r.map (fun x => if x.Name == c.Name then c else x)).find? (fun x => x.Name == n) =
      r.find? (fun x => x.Name == n) := by
  have hcn : (c.Name == n) = false := beq_eq_false_iff_ne.mpr (Ne.symm hn)
  induction r with
  | nil => rfl
  | cons x r ih =>
    rw [List.map_cons]
    by_cases hx : x.Name = c.Name
    · have h1 : (if (x.Name == c.Name) = true then c else x) = c := by simp [hx]
      have h2 : (x.Name == n) = false := by rw [hx]; exact hcn
      rw [h1, List.find?_cons_of_neg _ (by simp [hcn]),
        List.find?_cons_of_neg _ (by simp [h2]), ih]
    · have h1 : (if (x.Name == c.Name) = true then c else x) = x := by simp [hx]
      rw [h1]
      cases hp : (x.Name == n) with
      | true =>
        rw [@List.find?_cons_of_pos _ (fun y => y.Name == n) x _ hp,
          @List.find?_cons_of_pos _ (fun y => y.Name == n) x _ hp]
      | false =>
        rw [List.find?_cons_of_neg _ (by simp [hp]),
          List.find?_cons_of_neg _ (by simp [hp]), ih]

lemma find?_add (r : List Cmd) (c : Cmd) (n : String) :
    (add r c).find? (fun x => x.Name == n) =
      if n = c.Name then some c else r.find? (fun x => x.Name == n) := by
  unfold add
  split
  · rename_i h
    by_cases hn : n = c.Name
    · rw [if_pos hn, hn]
      exact find?_replace_self r c h
    · rw [if_neg hn]
      exact find?_replace_other r c n hn
  · rename_i h
    have h' := List.any_eq_false.mp (Bool.eq_false_iff.mpr h)
    rw [List.find?_append]
    by_cases hn : n = c.Name
    · rw [if_pos hn]
      have hr : r.find? (fun x => x.Name == n) = none := by
        rw [List.find?_eq_none]
        intro x hx
        rw [hn]
        exact h' x hx
      rw [hr, Option.none_or, List.find?_cons_of_pos _ (by simp [hn])]
    · rw [if_neg hn]
      have hc : ([c].find? (fun x => x.Name == n)) = none := by
        rw [List.find?_eq_none]
        intro x hx
        simp only [List.mem_singleton] at hx
        subst hx
        simp [Ne.symm hn]
      rw [hc, Option.or_none]

lemma registry_concat (regs : List Cmd) (c : Cmd) :
    registry (regs ++ [c]) = add (registry regs) c := by
  unfold registry
  rw [List.foldl_concat]

lemma find?_registry (regs : List Cmd) (n : String) :
    (registry regs).find? (fun x => x.Name == n) =
      regs.reverse.find? (fun x => x.Name == n) := by
  induction regs using List.reverseRecOn with
  | nil => rfl
  | append_singleton regs c ih =>
    rw [registry_concat, find?_add, List.reverse_append]
    simp only [List.reverse_cons, List.reverse_nil, List.nil_append,
      List.singleton_append]
    by_cases hn : n = c.Name
    · rw [if_pos hn, List.find?_cons_of_pos _ (by simp [hn])]
    · rw [if_neg hn, ih,
        List.find?_cons_of_neg _ (by simp [beq_eq_false_iff_ne.mpr (Ne.symm hn)])]

lemma mem_map_name_iff_find? (l : List Cmd) (n : String) :
    n ∈ l.map Cmd.Name ↔ (l.find? (fun x => x.Name == n)).isSome := by
  rw [List.find?_isSome]
  constructor
  · intro h
    obtain ⟨x, hx, hxn⟩ := List.mem_map.mp h
    exact ⟨x, hx, by simp [hxn]⟩
  · rintro ⟨x, hx, hxn⟩
    exact List.mem_map.mpr ⟨x, hx, by simpa using hxn⟩

lemma mem_names_registry (regs : List Cmd) (n : String) :
    n ∈ (registry regs).map Cmd.Name ↔ n ∈ regs.map Cmd.Name := by
  rw [mem_map_name_iff_find?, find?_registry, ← mem_map_name_iff_find?]
  simp [List.mem_map, List.mem_reverse]

lemma nodup_names_registry (regs : List Cmd) :
    ((registry regs).map Cmd.Name).Nodup := by
  induction regs using List.reverseRecOn with
  | nil => simp [registry]
  | append_singleton regs c ih =>
    rw [registry_concat, map_name_add]
    split
    · exact ih
    · rename_i h
      have h' := List.any_eq_false.mp (Bool.eq_false_iff.mpr h)
      rw [List.nodup_append]
      refine ⟨ih, List.nodup_singleton _, ?_⟩
      intro x hx hx1
      simp only [List.mem_singleton] at hx1
      subst hx1
      obtain ⟨d, hd, hdn⟩ := List.mem_map.mp hx
      exact h' d hd (by simp [hdn])

lemma sortedNames_sorted (r : List Cmd) :
    (sortedNames r).Sorted (fun a b : String => a ≤ b) := by
  have h := @List.sorted_mergeSort String (fun a b : String => decide (a ≤ b))
    (fun a b c hab hbc =>
      decide_eq_true (le_trans (of_decide_eq_true hab) (of_decide_eq_true hbc)))
    (fun a b => by simpa using le_total a b)
    (r.map Cmd.Name)
  exact h.imp fun hab => of_decide_eq_true hab

lemma sortedNames_perm (r : List Cmd) :
    (sortedNames r).Perm (r.map Cmd.Name) :=
  List.mergeSort_perm _ _

lemma find?_name_of_mem (r : List Cmd) (n : String) (hn : n ∈ r.map Cmd.Name) :
    ∃ c, r.find? (fun x => x.Name == n) = some c ∧ c.Name = n := by
  have hs : (r.find? (fun x => x.Name == n)).isSome :=
    (mem_map_name_iff_find? r n).mp hn
  obtain ⟨c, hc⟩ := Option.isSome_iff_exists.mp hs
  exact ⟨c, hc, by simpa using List.find?_some hc⟩

lemma map_fst_helpRows (r : List Cmd) :
    (helpRows r).map (fun row => row.1) = sortedNames r := by
  unfold helpRows
  rw [List.map_map]
  refine Eq.trans (List.map_congr_left ?_) (List.map_id _)
  intro n hn
  have hn' : n ∈ r.map Cmd.Name := (sortedNames_perm r).mem_iff.mp hn
  obtain ⟨c, hc, hcn⟩ := find?_name_of_mem r n hn'
  simp [Function.comp, hc, hcn]

/-- C8: after any sequence of `Add` calls the `Help` listing has exactly one
row per distinct registered name (its name column is duplicate-free and
contains precisely the registered names), the rows are sorted
lexicographically by name regardless of registration order, and each row
carries the `Syntax` and `Help` of the most recent registration under that
name. -/
theorem help_rows_spec (regs : List Cmd) :
    ((helpRows (registry regs)).map (fun row => row.1)).Sorted
        (fun a b : String => a ≤ b) ∧
    ((helpRows (registry regs)).map (fun row => row.1)).Nodup ∧
    (∀ n : String, n ∈ (helpRows (registry regs)).map (fun row => row.1) ↔
        n ∈ regs.map Cmd.Name) ∧
    (∀ row ∈ helpRows (registry regs),
        ∃ c : Cmd, regs.reverse.find? (fun d => d.Name == row.1) = some c ∧
          row = (c.Name, c.Syntax, c.Help)) := by
  refine ⟨?_, ?_, ?_, ?_⟩
  · rw [map_fst_helpRows]
    exact sortedNames_sorted _
  · rw [map_fst_helpRows]
    exact ((sortedNames_perm _).nodup_iff).mpr (nodup_names_registry regs)
  · intro n
    rw [map_fst_helpRows, (sortedNames_perm _).mem_iff]
    exact mem_names_registry regs n
  · intro row hrow
    unfold helpRows at hrow
    obtain ⟨n, hn, hrow⟩ := List.mem_map.mp hrow
    have hn' : n ∈ (registry regs).map Cmd.Name := (sortedNames_perm _).mem_iff.mp hn
    obtain ⟨c, hc, hcn⟩ := find?_name_of_mem _ n hn'
    rw [hc] at hrow
    subst hrow
    refine ⟨c, ?_, rfl⟩
    rw [← find?_registry]
    simpa [hcn] using hc

/-- Witness for C8: with two commands registered out of name order, the name
of the first row still appears among the registered names. -/
theorem help_rows_spec_witness :
    "reboot" ∈ (helpRows (registry [setCmd, rebootCmd])).map (fun row => row.1) :=
  ((help_rows_spec [setCmd, rebootCmd]).2.2.1 "reboot").mpr (by decide)

end cmd
